import Mathlib

/-!
Verification of the sliding-window rate limiter in
internal/middlewares/ratelimit.go (repository gostarterkit).

Time instants and durations are modelled as integers counting nanoseconds,
matching Go's time.Time / time.Duration resolution.  The registry map
(map[string]*clientInfo) is modelled as an association list with unique keys
in insertion order; Go map iteration order does not matter for the modelled
operations (cleanup decides each entry independently).  Go code that indexes
a slice returns Option here: none models a runtime panic (index out of
range), so total success of an operation is the no-panic property.
-/

/-- State of the RateLimiter struct: the clients map (clientID to the
requests slice of clientInfo), plus the two configuration fields.
The cleanupTicker and mutexes carry no data relevant to the modelled
sequential semantics. -/
structure RL where
  clients : List (String × List Int)
  maxRequests : Int
  windowSize : Int
deriving DecidableEq

/-- Lookup in the clients map (Go map read m[k]). -/
def mget : List (String × List Int) → String → Option (List Int)
  | [], _ => none
  | (k, v) :: rest, key => if k = key then some v else mget rest key

/-- Write to the clients map (Go map write m[k] = v): replaces the value at
an existing key in place, otherwise appends a new entry. -/
def mset : List (String × List Int) → String → List Int → List (String × List Int)
  | [], key, v => [(key, v)]
  | (k, w) :: rest, key, v =>
    if k = key then (key, v) :: rest else (k, w) :: mset rest key v

/-- Nanoseconds per second; time.Duration.Seconds divides by this.  For the
magnitudes a Duration can hold in practice (below 2^24 seconds), Go's
int(d.Seconds()) equals truncating division of the nanosecond count, which
is Int.tdiv here. -/
def nsPerSecond : Int := 1000000000

/-- The validRequests slice computed by isAllowed (ratelimit.go lines 92
to 101): the stored requests of the client (an absent entry has just been
created with an empty slice) restricted to those with
reqTime.After(cutoff), that is reqTime > now - windowSize. -/
def pruned (rl : RL) (clientID : String) (now : Int) : List Int :=
  ((mget rl.clients clientID).getD []).filter
    (fun t => decide (now - rl.windowSize < t))

/-- The Retry-After computation of the denial branch (ratelimit.go lines
106 to 112): int(timeUntilExpiry.Seconds()) + 1, floored at 1.  The int
conversion truncates toward zero, which on the nanosecond count is
Int.tdiv by nsPerSecond. -/
def goRetryAfter (windowSize now oldestRequest : Int) : Int :=
  let timeUntilExpiry := windowSize - (now - oldestRequest)
  let retryAfter := timeUntilExpiry.tdiv nsPerSecond + 1
  if retryAfter < 1 then 1 else retryAfter

/-- RateLimiter.isAllowed (ratelimit.go lines 78 to 119), translated
line by line.  A missing client entry is created (requests = []); requests
outside the window are dropped (pruned); if the surviving count reaches
maxRequests the request is denied with a Retry-After computed from
validRequests[0] and now is NOT appended, otherwise now is appended.
none models the panic of the validRequests[0] read on an empty slice
(reachable only when maxRequests <= 0). -/
def isAllowed (rl : RL) (clientID : String) (now : Int) : Option (Bool × Int × RL) :=
  if rl.maxRequests ≤ ((pruned rl clientID now).length : Int) then
    match (pruned rl clientID now).head? with
    | none => none
    | some oldestRequest =>
      some (false, goRetryAfter rl.windowSize now oldestRequest,
        { rl with clients := mset rl.clients clientID (pruned rl clientID now) })
  else
    some (true, 0,
      { rl with clients := mset rl.clients clientID (pruned rl clientID now ++ [now]) })

/-- Body of one sweep of RateLimiter.cleanup (ratelimit.go lines 49 to 66):
an entry with no requests is removed; otherwise the entry is removed
exactly when now.Sub(requests[0]) > windowSize, that is when only its
OLDEST timestamp has left the window.  none models the panic of a
requests[0] read on an empty slice (unreachable: the length is checked
first). -/
def cleanupClients (windowSize now : Int) :
    List (String × List Int) → Option (List (String × List Int))
  | [] => some []
  | (k, ts) :: rest =>
    match cleanupClients windowSize now rest with
    | none => none
    | some rest2 =>
      if ts.length = 0 then some rest2
      else
        match ts.head? with
        | none => none
        | some oldestRequest =>
          if windowSize < now - oldestRequest then some rest2
          else some ((k, ts) :: rest2)

/-- One wake-up of the cleanup goroutine at instant now. -/
def cleanup (rl : RL) (now : Int) : Option RL :=
  match cleanupClients rl.windowSize now rl.clients with
  | none => none
  | some cs => some { rl with clients := cs }

/-- One operation applied to the limiter: an admission check for a client
at an instant, or a cleanup sweep at an instant. -/
inductive StepOp where
  | req (clientID : String) (now : Int)
  | sweep (now : Int)
deriving DecidableEq

/-- Run a sequence of operations from a state, collecting the log of
admitted requests as (clientID, instant) pairs in order. -/
def runLog : RL → List StepOp → Option (RL × List (String × Int))
  | rl, [] => some (rl, [])
  | rl, StepOp.req c now :: rest =>
    match isAllowed rl c now with
    | none => none
    | some (allowed, _, rl2) =>
      match runLog rl2 rest with
      | none => none
      | some (rlf, admitted) =>
        some (rlf, (if allowed then [(c, now)] else []) ++ admitted)
  | rl, StepOp.sweep now :: rest =>
    match cleanup rl now with
    | none => none
    | some rl2 => runLog rl2 rest

/-- Number of admitted requests of client c whose instants lie in the
window of duration w starting at t. -/
def countInWindow (c : String) (t w : Int) (admitted : List (String × Int)) : Nat :=
  (admitted.filter (fun p => p.1 == c && decide (t ≤ p.2) && decide (p.2 < t + w))).length

/-- States reachable from a freshly constructed limiter (NewRateLimiter)
by completed isAllowed calls and cleanup sweeps. -/
inductive Reach : RL → Prop where
  | init (maxRequests windowSize : Int) :
      Reach { clients := [], maxRequests := maxRequests, windowSize := windowSize }
  | step (rl rl2 : RL) (c : String) (now : Int) (allowed : Bool) (retryAfter : Int) :
      Reach rl → isAllowed rl c now = some (allowed, retryAfter, rl2) → Reach rl2
  | sweep (rl rl2 : RL) (now : Int) :
      Reach rl → cleanup rl now = some rl2 → Reach rl2

/-- Go's unicode.IsSpace: the Unicode White_Space code points. -/
def goIsSpace (c : Char) : Bool :=
  c == '\t' || c == '\n' || c == Char.ofNat 11 || c == Char.ofNat 12 || c == '\r' ||
  c == ' ' || c == Char.ofNat 0x85 || c == Char.ofNat 0xA0 ||
  c == Char.ofNat 0x1680 || (Char.ofNat 0x2000 ≤ c && c ≤ Char.ofNat 0x200A) ||
  c == Char.ofNat 0x2028 || c == Char.ofNat 0x2029 || c == Char.ofNat 0x202F ||
  c == Char.ofNat 0x205F || c == Char.ofNat 0x3000

/-- Drop matching characters from both ends (shape of strings.TrimSpace and
strings.Trim for a character-class cutset). -/
def trimEnds (p : Char → Bool) (l : List Char) : List Char :=
  ((l.dropWhile p).reverse.dropWhile p).reverse

/-- strings.TrimSpace. -/
def trimSpaceStr (s : String) : String := String.mk (trimEnds goIsSpace s.toList)

/-- The strings.Index-based truncation at the first comma in getClientIP:
xff = xff[:idx] when a comma is present, else xff unchanged.  The comma is
ASCII, so the byte-level cut of the Go source coincides with this
character-level cut on any valid UTF-8 string. -/
def cutAtComma (s : String) : String :=
  String.mk (s.toList.takeWhile (fun c => !(c == ',')))

/-- Index of the first occurrence of a character (bytealg.IndexByteString
for the ASCII delimiters used here). -/
def firstIdx (c : Char) : List Char → Option Nat
  | [] => none
  | x :: xs => if x == c then some 0 else (firstIdx c xs).map (fun i => i + 1)

/-- Index of the last occurrence of a character (the last(hostport, ':')
helper of net.SplitHostPort). -/
def lastIdx (c : Char) (s : List Char) : Option Nat :=
  match firstIdx c s.reverse with
  | none => none
  | some i => some (s.length - 1 - i)

/-- net.SplitHostPort from the Go standard library, which getClientIP
calls on RemoteAddr: the port starts after the last colon; a leading
bracket must be matched by a bracket directly before that colon; stray
colons or brackets are errors (none).  All delimiters are ASCII, so
character indices stand in for the source's byte indices. -/
def splitHostPort (s : List Char) : Option (List Char × List Char) :=
  match lastIdx ':' s with
  | none => none
  | some i =>
    if s.head? = some '[' then
      match firstIdx ']' s with
      | none => none
      | some e =>
        if e + 1 = s.length then none
        else if e + 1 = i then
          if (s.drop 1).contains '[' then none
          else if (s.drop (e + 1)).contains ']' then none
          else some ((s.take e).drop 1, s.drop (i + 1))
        else if (s.drop (e + 1)).head? = some ':' then none
        else none
    else
      if (s.take i).contains ':' then none
      else if s.contains '[' then none
      else if s.contains ']' then none
      else some (s.take i, s.drop (i + 1))

/-- strings.Trim(ip, "[]") applied after a successful SplitHostPort. -/
def trimBrackets (l : List Char) : List Char :=
  trimEnds (fun c => c == '[' || c == ']') l

/-- The parts of *http.Request that the middleware reads.  Go's
Header.Get returns the empty string when the header is absent, so an
absent header is the empty string here. -/
structure Request where
  path : String
  xff : String
  xri : String
  remoteAddr : String
deriving DecidableEq

/-- getClientIP (ratelimit.go lines 122 to 147): X-Forwarded-For first
entry, else X-Real-IP, else RemoteAddr through SplitHostPort with a
bracket trim, falling back to the raw RemoteAddr when splitting fails. -/
def getClientIP (r : Request) : String :=
  if r.xff ≠ "" then trimSpaceStr (cutAtComma r.xff)
  else if r.xri ≠ "" then trimSpaceStr r.xri
  else
    match splitHostPort r.remoteAddr.toList with
    | none => r.remoteAddr
    | some (host, _) => String.mk (trimBrackets host)

/-- The bypass test of RateLimitMiddleware (ratelimit.go line 156). -/
def bypassPath (p : String) : Bool :=
  p == "/healthz" || p == "/livez" || p == "/readyz"

/-- Observable outcome of the middleware on one request: pass the request
downstream, or answer 429 with the given Retry-After value. -/
inductive MWOut where
  | forward
  | tooMany (retryAfter : Int)
deriving DecidableEq

/-- One pass of the handler returned by RateLimitMiddleware (ratelimit.go
lines 153 to 182) over a request arriving at instant now. -/
def rateLimitStep (rl : RL) (r : Request) (now : Int) : Option (MWOut × RL) :=
  if bypassPath r.path then some (MWOut.forward, rl)
  else
    match isAllowed rl (getClientIP r) now with
    | none => none
    | some (true, _, rl2) => some (MWOut.forward, rl2)
    | some (false, retryAfter, rl2) => some (MWOut.tooMany retryAfter, rl2)

/-- Run the middleware over a sequence of (request, instant) pairs. -/
def runMW : RL → List (Request × Int) → Option (List MWOut × RL)
  | rl, [] => some ([], rl)
  | rl, (r, now) :: rest =>
    match rateLimitStep rl r now with
    | none => none
    | some (out, rl2) =>
      match runMW rl2 rest with
      | none => none
      | some (outs, rlf) => some (out :: outs, rlf)

/-- Modelled from the spec: the ceiling, in whole seconds, of a duration
given in nanoseconds (windowSize is positive in every use). -/
def ceilSeconds (d : Int) : Int :=
  if nsPerSecond ∣ d then d / nsPerSecond else d / nsPerSecond + 1

/-- Modelled from the spec: retryAfterSeconds = ceil((oldestRemaining +
windowSize) - now), floored at 1 when the computed value is non-positive,
taking the duration argument in nanoseconds. -/
def specRetryAfter (d : Int) : Int := max 1 (ceilSeconds d)

/-! ### Map lemmas -/

theorem mget_mset_self (m : List (String × List Int)) (k : String) (v : List Int) :
    mget (mset m k v) k = some v := by
  induction m with
  | nil => simp [mget, mset]
  | cons p rest ih =>
    obtain ⟨k0, v0⟩ := p
    by_cases h : k0 = k <;> simp [mset, mget, h, ih]

theorem mget_mset_ne (m : List (String × List Int)) (k k2 : String) (v : List Int)
    (h : k2 ≠ k) : mget (mset m k v) k2 = mget m k2 := by
  induction m with
  | nil => simp only [mset, mget, if_neg (Ne.symm h)]
  | cons p rest ih =>
    obtain ⟨k0, v0⟩ := p
    by_cases h0 : k0 = k
    · subst h0
      simp only [mset, if_pos rfl, mget, if_neg (Ne.symm h)]
    · simp only [mset, if_neg h0, mget]
      by_cases h2 : k0 = k2
      · simp [h2]
      · simp [h2, ih]

theorem mem_mset (m : List (String × List Int)) (k : String) (v : List Int)
    (p : String × List Int) (h : p ∈ mset m k v) : p = (k, v) ∨ p ∈ m := by
  induction m with
  | nil => simpa [mset] using h
  | cons q rest ih =>
    obtain ⟨k0, v0⟩ := q
    by_cases h0 : k0 = k
    · simp only [mset, if_pos h0, List.mem_cons] at h
      rcases h with h | h
      · exact Or.inl h
      · exact Or.inr (List.mem_cons_of_mem _ h)
    · simp only [mset, if_neg h0, List.mem_cons] at h
      rcases h with h | h
      · exact Or.inr (h ▸ List.mem_cons_self _ _)
      · rcases ih h with h2 | h2
        · exact Or.inl h2
        · exact Or.inr (List.mem_cons_of_mem _ h2)

theorem mget_mem (m : List (String × List Int)) (k : String) (ts : List Int)
    (h : mget m k = some ts) : (k, ts) ∈ m := by
  induction m with
  | nil => simp [mget] at h
  | cons q rest ih =>
    obtain ⟨k0, v0⟩ := q
    by_cases h0 : k0 = k
    · subst h0
      have hv : v0 = ts := by simpa [mget] using h
      exact hv ▸ List.mem_cons_self _ _
    · simp only [mget, if_neg h0] at h
      exact List.mem_cons_of_mem _ (ih h)

/-! ### Shape of a completed isAllowed call -/

theorem isAllowed_cases (rl : RL) (c : String) (now : Int) (allowed : Bool)
    (retryAfter : Int) (rl2 : RL)
    (h : isAllowed rl c now = some (allowed, retryAfter, rl2)) :
    (allowed = true ∧ retryAfter = 0 ∧
      ¬ rl.maxRequests ≤ ((pruned rl c now).length : Int) ∧
      rl2 = { rl with clients := mset rl.clients c (pruned rl c now ++ [now]) }) ∨
    (allowed = false ∧ rl.maxRequests ≤ ((pruned rl c now).length : Int) ∧
      rl2 = { rl with clients := mset rl.clients c (pruned rl c now) } ∧
      ∃ t0 rest, pruned rl c now = t0 :: rest ∧
        retryAfter = goRetryAfter rl.windowSize now t0) := by
  unfold isAllowed at h
  by_cases hc : rl.maxRequests ≤ ((pruned rl c now).length : Int)
  · rw [if_pos hc] at h
    cases hl : pruned rl c now with
    | nil => rw [hl] at h; simp at h
    | cons t0 rest =>
      rw [hl] at h
      simp only [List.head?, Option.some.injEq, Prod.mk.injEq] at h
      obtain ⟨h1, h2, h3⟩ := h
      exact Or.inr ⟨h1.symm, hl ▸ hc, h3.symm, t0, rest, rfl, h2.symm⟩
  · rw [if_neg hc] at h
    simp only [Option.some.injEq, Prod.mk.injEq] at h
    obtain ⟨h1, h2, h3⟩ := h
    exact Or.inl ⟨h1.symm, h2.symm, hc, h3.symm⟩

/-! ### Shape of a completed cleanup sweep -/

theorem cleanupClients_total (w now : Int) (m : List (String × List Int)) :
    ∃ m2, cleanupClients w now m = some m2 := by
  induction m with
  | nil => exact ⟨[], rfl⟩
  | cons p rest ih =>
    obtain ⟨k, ts⟩ := p
    obtain ⟨r2, hr⟩ := ih
    cases ts with
    | nil => exact ⟨r2, by simp [cleanupClients, hr]⟩
    | cons t ts2 =>
      by_cases hw : w < now - t
      · exact ⟨r2, by simp [cleanupClients, hr, List.head?, hw]⟩
      · exact ⟨(k, t :: ts2) :: r2, by simp [cleanupClients, hr, List.head?, hw]⟩

theorem cleanupClients_mem (w now : Int) (m m2 : List (String × List Int))
    (h : cleanupClients w now m = some m2) (p : String × List Int)
    (hp : p ∈ m2) : p ∈ m := by
  induction m generalizing m2 with
  | nil =>
    simp only [cleanupClients, Option.some.injEq] at h
    subst h
    simp at hp
  | cons q rest ih =>
    obtain ⟨k, ts⟩ := q
    simp only [cleanupClients] at h
    cases hr : cleanupClients w now rest with
    | none => rw [hr] at h; simp at h
    | some r2 =>
      rw [hr] at h
      replace h : (if ts.length = 0 then some r2
          else match ts.head? with
            | none => none
            | some oldestRequest =>
              if w < now - oldestRequest then some r2
              else some ((k, ts) :: r2)) = some m2 := h
      by_cases h0 : ts.length = 0
      · rw [if_pos h0] at h
        obtain rfl : r2 = m2 := by simpa using h
        exact List.mem_cons_of_mem _ (ih r2 hr hp)
      · rw [if_neg h0] at h
        cases ts with
        | nil => simp at h0
        | cons t ts2 =>
          replace h : (if w < now - t then some r2
              else some ((k, t :: ts2) :: r2)) = some m2 := h
          by_cases hw : w < now - t
          · rw [if_pos hw] at h
            obtain rfl : r2 = m2 := by simpa using h
            exact List.mem_cons_of_mem _ (ih r2 hr hp)
          · rw [if_neg hw] at h
            obtain rfl : (k, t :: ts2) :: r2 = m2 := by simpa using h
            rcases List.mem_cons.mp hp with h2 | h2
            · exact h2 ▸ List.mem_cons_self _ _
            · exact List.mem_cons_of_mem _ (ih r2 hr h2)

theorem cleanup_shape (rl : RL) (now : Int) (rl2 : RL)
    (h : cleanup rl now = some rl2) :
    rl2.maxRequests = rl.maxRequests ∧ rl2.windowSize = rl.windowSize ∧
    ∀ p ∈ rl2.clients, p ∈ rl.clients := by
  unfold cleanup at h
  cases hc : cleanupClients rl.windowSize now rl.clients with
  | none => rw [hc] at h; simp at h
  | some cs =>
    rw [hc] at h
    replace h : some ({ rl with clients := cs } : RL) = some rl2 := h
    obtain rfl : ({ rl with clients := cs } : RL) = rl2 := by simpa using h
    exact ⟨rfl, rfl, fun p hp => cleanupClients_mem _ _ _ _ hc p hp⟩

/-! ### Claim theorems -/

/-- Claim C1 (code bug exhibit): with maxRequests = 2 and windowSize = 10,
the trace (request A at 0, request A at 5, cleanup sweep at 11, request A
at 11, request A at 12) completes with every request admitted, and the
window of duration windowSize starting at t = 5 contains 3 admitted
requests of client A, exceeding maxRequests.  The sweep at 11 removed the
entry although timestamp 5 was still inside the window. -/
theorem admitted_exceed_max_in_window :
    runLog { clients := [], maxRequests := 2, windowSize := 10 }
        [StepOp.req "A" 0, StepOp.req "A" 5, StepOp.sweep 11,
         StepOp.req "A" 11, StepOp.req "A" 12]
      = some ({ clients := [("A", [11, 12])], maxRequests := 2, windowSize := 10 },
              [("A", 0), ("A", 5), ("A", 11), ("A", 12)])
    ∧ countInWindow "A" 5 10 [("A", 0), ("A", 5), ("A", 11), ("A", 12)] = 3
    ∧ ¬ ((countInWindow "A" 5 10 [("A", 0), ("A", 5), ("A", 11), ("A", 12)] : Int)
          ≤ ({ clients := [], maxRequests := 2, windowSize := 10 } : RL).maxRequests) := by
  refine ⟨by decide, by decide, by decide⟩

/-- Claim C2 (code bug exhibit): a cleanup sweep at now = 11 with
windowSize = 10 deletes the registry entry of client A holding timestamps
[0, 5], even though timestamp 5 satisfies 5 > now - windowSize and the
claim (and the comment in the code) says such an entry is left in place;
the code tests only the oldest timestamp requests[0]. -/
theorem cleanup_removes_live_entry :
    cleanup { clients := [("A", [0, 5])], maxRequests := 2, windowSize := 10 } 11
      = some { clients := [], maxRequests := 2, windowSize := 10 }
    ∧ ((11 : Int) - 10 < 5) := by
  refine ⟨by decide, by decide⟩

/-- Claim C3 counterexample: client A holds timestamp 0, maxRequests = 1,
windowSize = 2s, evaluated at now = 1s.  The remaining time of the oldest
timestamp is exactly 1s, the claimed value ceil(1s) clamped is 1, but the
code returns 2 (truncation plus one). -/
theorem retry_after_differs_from_ceiling :
    isAllowed (RL.mk [("A", [0])] 1 2000000000) "A" 1000000000
      = some (false, 2, RL.mk [("A", [0])] 1 2000000000)
    ∧ specRetryAfter ((0 + 2000000000) - 1000000000) = 1
    ∧ ((2 : Int) ≠ 1) := by
  refine ⟨by decide, by decide, by decide⟩

/-- Claim C4 counterexample: client A holds timestamp 0 (equal to now),
maxRequests = 1, windowSize = 1s, evaluated at now = 0.  Every stored
timestamp is <= now, the request is denied, windowSize in whole seconds
is 1, yet the returned Retry-After is 2 = windowSize + 1 seconds,
violating the claimed upper bound Retry-After <= windowSize. -/
theorem retry_after_above_window :
    isAllowed (RL.mk [("A", [0])] 1 1000000000) "A" 0
      = some (false, 2, RL.mk [("A", [0])] 1 1000000000)
    ∧ (∀ t ∈ ([0] : List Int), t ≤ (0 : Int))
    ∧ (RL.mk [("A", [0])] 1 1000000000).windowSize / nsPerSecond = 1
    ∧ ¬ ((2 : Int) ≤ 1) := by
  refine ⟨by decide, by decide, by decide, by decide⟩

theorem goRetryAfter_pos_eq (w now t0 : Int) (h : 0 < w - (now - t0)) :
    goRetryAfter w now t0 = (w - (now - t0)) / nsPerSecond + 1 := by
  have h0 : 0 ≤ w - (now - t0) := le_of_lt h
  have hns : (0 : Int) ≤ nsPerSecond := by norm_num [nsPerSecond]
  have htd : (w - (now - t0)).tdiv nsPerSecond = (w - (now - t0)) / nsPerSecond :=
    Int.tdiv_eq_ediv h0 hns
  have hnn : 0 ≤ (w - (now - t0)) / nsPerSecond := Int.ediv_nonneg h0 hns
  show (if (w - (now - t0)).tdiv nsPerSecond + 1 < 1 then 1
        else (w - (now - t0)).tdiv nsPerSecond + 1) = (w - (now - t0)) / nsPerSecond + 1
  rw [htd, if_neg (by omega)]

/-- Claim C3 amended: on a denial evaluated at now against a client whose
stored timestamps are chronological, the oldest remaining timestamp is the
head t0 of the pruned sequence, its remaining time d = (t0 + windowSize) -
now is positive, and the returned Retry-After equals ceil(d in seconds)
when d is not an exact whole number of seconds, but ceil(d in seconds) + 1
when it is: the code computes truncation-plus-one, not the ceiling, and
the clamp at 1 never fires on a denial. -/
theorem retry_after_truncation_of_remaining (rl : RL) (c : String)
    (now retryAfter : Int) (rl2 : RL)
    (hsort : ((mget rl.clients c).getD []).Pairwise (fun a b => a ≤ b))
    (hden : isAllowed rl c now = some (false, retryAfter, rl2)) :
    ∃ t0 rest, pruned rl c now = t0 :: rest ∧
      (∀ t ∈ pruned rl c now, t0 ≤ t) ∧
      0 < (t0 + rl.windowSize) - now ∧
      retryAfter =
        (if nsPerSecond ∣ ((t0 + rl.windowSize) - now)
         then ceilSeconds ((t0 + rl.windowSize) - now) + 1
         else ceilSeconds ((t0 + rl.windowSize) - now)) := by
  rcases isAllowed_cases rl c now false retryAfter rl2 hden with
    ⟨hT, _⟩ | ⟨_, _, _, t0, rest, hl, hra⟩
  · exact absurd hT (by simp)
  · have hmem : t0 ∈ pruned rl c now := by rw [hl]; exact List.mem_cons_self _ _
    have hcut : now - rl.windowSize < t0 := by
      unfold pruned at hmem
      exact of_decide_eq_true (List.mem_filter.mp hmem).2
    have hd : 0 < (t0 + rl.windowSize) - now := by omega
    refine ⟨t0, rest, hl, ?_, hd, ?_⟩
    · have hp : (pruned rl c now).Pairwise (fun a b : Int => a ≤ b) := by
        unfold pruned
        exact List.Pairwise.filter _ hsort
      rw [hl] at hp
      rw [hl]
      intro t ht
      rcases List.mem_cons.mp ht with rfl | ht2
      · exact le_refl t
      · exact (List.pairwise_cons.mp hp).1 t ht2
    · have hd0 : 0 < rl.windowSize - (now - t0) := by omega
      rw [hra, goRetryAfter_pos_eq _ _ _ hd0]
      have he : rl.windowSize - (now - t0) = (t0 + rl.windowSize) - now := by ring
      rw [he]
      unfold ceilSeconds
      split <;> ring

/-- Claim C4 amended: on any denial evaluated at now against a client all
of whose stored timestamps are <= now, the returned Retry-After is a whole
number of seconds with 1 <= Retry-After <= (windowSize in whole seconds)
+ 1, and the upper bound windowSize + 1 is attained (see the
counterexample), so the claimed bound of windowSize does not hold. -/
theorem retry_after_bounds (rl : RL) (c : String) (now retryAfter : Int) (rl2 : RL)
    (hpast : ∀ t ∈ (mget rl.clients c).getD [], t ≤ now)
    (hden : isAllowed rl c now = some (false, retryAfter, rl2)) :
    1 ≤ retryAfter ∧ retryAfter ≤ rl.windowSize / nsPerSecond + 1 := by
  rcases isAllowed_cases rl c now false retryAfter rl2 hden with
    ⟨hT, _⟩ | ⟨_, _, _, t0, rest, hl, hra⟩
  · exact absurd hT (by simp)
  · have hmem : t0 ∈ pruned rl c now := by rw [hl]; exact List.mem_cons_self _ _
    have hcut : now - rl.windowSize < t0 := by
      unfold pruned at hmem
      exact of_decide_eq_true (List.mem_filter.mp hmem).2
    have hstored : t0 ∈ (mget rl.clients c).getD [] := by
      unfold pruned at hmem
      exact (List.mem_filter.mp hmem).1
    have hle : t0 ≤ now := hpast t0 hstored
    have hd0 : 0 < rl.windowSize - (now - t0) := by omega
    have hdW : rl.windowSize - (now - t0) ≤ rl.windowSize := by omega
    have hns : (0 : Int) < nsPerSecond := by norm_num [nsPerSecond]
    rw [hra, goRetryAfter_pos_eq _ _ _ hd0]
    constructor
    · have := Int.ediv_nonneg (le_of_lt hd0) (le_of_lt hns)
      omega
    · have := Int.ediv_le_ediv hns hdW
      omega

/-- Claim C5: on a denial evaluated at now, the denied client's stored
sequence afterwards is exactly its sequence before with the timestamps
<= now - windowSize removed (the pruned sequence) and now is NOT appended;
every other client's entry and both configuration fields are unchanged. -/
theorem denial_consumes_no_slot (rl : RL) (c : String) (now retryAfter : Int) (rl2 : RL)
    (hden : isAllowed rl c now = some (false, retryAfter, rl2)) :
    mget rl2.clients c = some (pruned rl c now)
    ∧ (∀ k, k ≠ c → mget rl2.clients k = mget rl.clients k)
    ∧ rl2.maxRequests = rl.maxRequests ∧ rl2.windowSize = rl.windowSize := by
  rcases isAllowed_cases rl c now false retryAfter rl2 hden with
    ⟨hT, _⟩ | ⟨_, _, hrl2, _⟩
  · exact absurd hT (by simp)
  · subst hrl2
    exact ⟨mget_mset_self _ _ _, fun k hk => mget_mset_ne _ _ _ _ hk, rfl, rfl⟩

/-- Claim C6: after any completed isAllowed call for a client (allowed or
denied, with the configured windowSize positive), every timestamp stored
for that client is strictly greater than now - windowSize: timestamps at
or below the cutoff were dropped by the evaluation. -/
theorem stored_inside_window (rl : RL) (c : String) (now : Int) (allowed : Bool)
    (retryAfter : Int) (rl2 : RL) (hw : 0 < rl.windowSize)
    (hcall : isAllowed rl c now = some (allowed, retryAfter, rl2)) :
    ∀ ts, mget rl2.clients c = some ts → ∀ t ∈ ts, now - rl.windowSize < t := by
  intro ts hts t ht
  rcases isAllowed_cases rl c now allowed retryAfter rl2 hcall with
    ⟨_, _, _, hrl2⟩ | ⟨_, _, hrl2, _⟩
  · subst hrl2
    rw [mget_mset_self] at hts
    obtain rfl : pruned rl c now ++ [now] = ts := by simpa using hts
    rcases List.mem_append.mp ht with h2 | h2
    · unfold pruned at h2
      exact of_decide_eq_true (List.mem_filter.mp h2).2
    · have : t = now := by simpa using h2
      omega
  · subst hrl2
    rw [mget_mset_self] at hts
    obtain rfl : pruned rl c now = ts := by simpa using hts
    unfold pruned at ht
    exact of_decide_eq_true (List.mem_filter.mp ht).2

/-- Claim C7: getClientIP returns, in priority order, the trimmed first
comma-separated entry of a non-empty X-Forwarded-For, else the trimmed
X-Real-IP, else RemoteAddr through net.SplitHostPort (port dropped,
brackets stripped), or the raw RemoteAddr when that parse fails; the
claim's two concrete examples and further branch samples are included.
The function is total, so it always returns a string. -/
theorem client_key_priority :
    (∀ r : Request, r.xff ≠ "" → getClientIP r = trimSpaceStr (cutAtComma r.xff))
    ∧ (∀ r : Request, r.xff = "" → r.xri ≠ "" → getClientIP r = trimSpaceStr r.xri)
    ∧ (∀ r : Request, r.xff = "" → r.xri = "" →
        getClientIP r =
          (match splitHostPort r.remoteAddr.toList with
           | none => r.remoteAddr
           | some (host, _) => String.mk (trimBrackets host)))
    ∧ getClientIP (Request.mk "/" "203.0.113.1, 203.0.113.2" "" "10.0.0.1:80")
        = "203.0.113.1"
    ∧ getClientIP (Request.mk "/" "" "" "[::1]:8080") = "::1"
    ∧ getClientIP (Request.mk "/" "" " 203.0.113.7 " "[::1]:8080") = "203.0.113.7"
    ∧ getClientIP (Request.mk "/" "" "" "invalid-addr") = "invalid-addr"
    ∧ getClientIP (Request.mk "/" "" "" "192.168.1.1:8080") = "192.168.1.1" := by
  refine ⟨?_, ?_, ?_, by decide, by decide, by decide, by decide, by decide⟩
  · intro r h
    simp [getClientIP, h]
  · intro r h1 h2
    simp [getClientIP, h1, h2]
  · intro r h1 h2
    simp [getClientIP, h1, h2]

/-- Claim C8: a request whose path is one of the bypass paths /healthz,
/livez, /readyz is forwarded downstream with the limiter state untouched;
a whole sequence of such requests of any length yields only forward
outcomes and leaves the state exactly as it was, so no counter is read or
written and no 429 is produced. -/
theorem bypass_paths_not_limited (rl : RL) (reqs : List (Request × Int))
    (hb : ∀ p ∈ reqs, bypassPath p.1.path = true) :
    runMW rl reqs = some (reqs.map (fun _ => MWOut.forward), rl) := by
  induction reqs with
  | nil => rfl
  | cons q rest ih =>
    obtain ⟨r, now⟩ := q
    have h1 : bypassPath r.path = true := hb (r, now) (List.mem_cons_self _ _)
    have h2 : ∀ p ∈ rest, bypassPath p.1.path = true :=
      fun p hp => hb p (List.mem_cons_of_mem _ hp)
    simp [runMW, rateLimitStep, h1, ih h2]

theorem reach_entry_bound (rl : RL) (h : Reach rl) :
    ∀ p ∈ rl.clients, ((p.2.length : Int) ≤ rl.maxRequests) := by
  induction h with
  | init mr w =>
    intro p hp
    simp at hp
  | step rl rl2 c now allowed retryAfter hr hcall ih =>
    intro p hp
    rcases isAllowed_cases rl c now allowed retryAfter rl2 hcall with
      ⟨_, _, hcnt, hrl2⟩ | ⟨_, _, hrl2, t0, rest, hl, _⟩
    · subst hrl2
      rcases mem_mset _ _ _ p hp with rfl | hp2
      · show (((pruned rl c now ++ [now]).length : Int)) ≤ rl.maxRequests
        have hlen : (pruned rl c now ++ [now]).length = (pruned rl c now).length + 1 := by
          simp
        rw [hlen]
        push_cast
        omega
      · exact ih p hp2
    · subst hrl2
      rcases mem_mset _ _ _ p hp with rfl | hp2
      · show (((pruned rl c now).length : Int)) ≤ rl.maxRequests
        cases hm : mget rl.clients c with
        | none =>
          exfalso
          unfold pruned at hl
          rw [hm] at hl
          simp at hl
        | some ts0 =>
          have h1 : (pruned rl c now).length ≤ ts0.length := by
            unfold pruned
            rw [hm]
            simpa using List.length_filter_le _ _
          have h2 := ih (c, ts0) (mget_mem _ _ _ hm)
          have h3 : ((pruned rl c now).length : Int) ≤ (ts0.length : Int) := by
            exact_mod_cast h1
          exact le_trans h3 h2
      · exact ih p hp2
  | sweep rl rl2 now hr hclean ih =>
    intro p hp
    obtain ⟨hm, _, hmem⟩ := cleanup_shape rl now rl2 hclean
    rw [hm]
    exact ih p (hmem p hp)

/-- Claim C9: in every state reachable from a fresh limiter by completed
isAllowed calls and cleanup sweeps, every client entry stores at most
maxRequests timestamps: an allowed call appends only when the pruned
count is strictly below maxRequests, a denied call only shrinks the
entry, and a sweep only removes entries. -/
theorem per_client_memory_bound (rl : RL) (h : Reach rl) (k : String) (ts : List Int)
    (hget : mget rl.clients k = some ts) : (ts.length : Int) ≤ rl.maxRequests :=
  reach_entry_bound rl h (k, ts) (mget_mem _ _ _ hget)

/-- Claim C10: with maxRequests >= 1 every isAllowed call completes (the
validRequests[0] read of the denial branch happens only when the pruned
count is at least maxRequests >= 1), and a cleanup sweep always completes
(requests[0] is read only after the emptiness check); none, the model of
an out-of-range slice index, is never returned. -/
theorem no_slice_panic (rl : RL) (c : String) (now now2 : Int)
    (hmax : 1 ≤ rl.maxRequests) :
    (isAllowed rl c now).isSome = true ∧ (cleanup rl now2).isSome = true := by
  constructor
  · unfold isAllowed
    by_cases hc : rl.maxRequests ≤ ((pruned rl c now).length : Int)
    · rw [if_pos hc]
      cases hl : pruned rl c now with
      | nil =>
        exfalso
        rw [hl] at hc
        simp at hc
        omega
      | cons t0 rest => rfl
    · rw [if_neg hc]
      rfl
  · obtain ⟨cs, hcs⟩ := cleanupClients_total rl.windowSize now2 rl.clients
    unfold cleanup
    rw [hcs]
    rfl

/-! ### Witnesses -/

theorem retry_after_truncation_of_remaining_witness :
    ∃ t0 rest, pruned (RL.mk [("A", [0])] 1 2000000000) "A" 1000000000 = t0 :: rest ∧
      (∀ t ∈ pruned (RL.mk [("A", [0])] 1 2000000000) "A" 1000000000, t0 ≤ t) ∧
      0 < (t0 + 2000000000) - 1000000000 ∧
      (2 : Int) =
        (if nsPerSecond ∣ ((t0 + 2000000000) - 1000000000)
         then ceilSeconds ((t0 + 2000000000) - 1000000000) + 1
         else ceilSeconds ((t0 + 2000000000) - 1000000000)) :=
  retry_after_truncation_of_remaining (RL.mk [("A", [0])] 1 2000000000) "A"
    1000000000 2 (RL.mk [("A", [0])] 1 2000000000) (by simp [mget]) (by decide)

theorem retry_after_bounds_witness :
    1 ≤ (2 : Int) ∧ (2 : Int) ≤ (1000000000 : Int) / nsPerSecond + 1 :=
  retry_after_bounds (RL.mk [("A", [0])] 1 1000000000) "A" 0 2
    (RL.mk [("A", [0])] 1 1000000000) (by decide) (by decide)

theorem denial_consumes_no_slot_witness :
    mget (RL.mk [("A", [0])] 1 1000000000).clients "A"
      = some (pruned (RL.mk [("A", [0])] 1 1000000000) "A" 0) :=
  (denial_consumes_no_slot (RL.mk [("A", [0])] 1 1000000000) "A" 0 2
    (RL.mk [("A", [0])] 1 1000000000) (by decide)).1

theorem stored_inside_window_witness : (6 : Int) - 10 < 5 :=
  stored_inside_window (RL.mk [("A", [5])] 2 10) "A" 6 true 0
    (RL.mk [("A", [5, 6])] 2 10) (by decide) (by decide) [5, 6] (by decide) 5 (by decide)

theorem client_key_priority_witness :
    getClientIP (Request.mk "/x" "10.0.0.9, 10.0.0.8" "7.7.7.7" "1.2.3.4:5")
      = trimSpaceStr (cutAtComma "10.0.0.9, 10.0.0.8") :=
  client_key_priority.1 (Request.mk "/x" "10.0.0.9, 10.0.0.8" "7.7.7.7" "1.2.3.4:5")
    (by decide)

theorem bypass_paths_not_limited_witness :
    runMW (RL.mk [] 1 1000000000)
        [(Request.mk "/healthz" "" "" "10.0.0.1:80", 0),
         (Request.mk "/livez" "" "" "10.0.0.1:80", 1),
         (Request.mk "/readyz" "" "" "10.0.0.1:80", 2)]
      = some ([MWOut.forward, MWOut.forward, MWOut.forward], RL.mk [] 1 1000000000) :=
  bypass_paths_not_limited (RL.mk [] 1 1000000000)
    [(Request.mk "/healthz" "" "" "10.0.0.1:80", 0),
     (Request.mk "/livez" "" "" "10.0.0.1:80", 1),
     (Request.mk "/readyz" "" "" "10.0.0.1:80", 2)] (by decide)

theorem per_client_memory_bound_witness :
    ((([0] : List Int)).length : Int) ≤ (RL.mk [("A", [0])] 2 10).maxRequests :=
  per_client_memory_bound (RL.mk [("A", [0])] 2 10)
    (Reach.step (RL.mk [] 2 10) (RL.mk [("A", [0])] 2 10) "A" 0 true 0
      (Reach.init 2 10) (by decide))
    "A" [0] (by decide)

theorem no_slice_panic_witness :
    (isAllowed (RL.mk [] 1 5) "A" 0).isSome = true
    ∧ (cleanup (RL.mk [] 1 5) 7).isSome = true :=
  no_slice_panic (RL.mk [] 1 5) "A" 0 7 (by decide)
